import Mathlib

/-!
Shallow embedding of the DevConnect backend's connection and messaging routes.

The document database is modelled as Lean lists of records; each route
handler becomes a pure function from the relevant collections (and the
authenticated user id) to either an error, mirroring the handler's early
returns, or the updated collections together with the response payload.
Mongo object ids are modelled as natural numbers, timestamps as naturals.
-/

namespace DevConnect

/-- Connection lifecycle status (pending / accepted / rejected). -/
inductive ConnStatus
  | pending
  | accepted
  | rejected
deriving DecidableEq

/-- A Connection document: a directed request between two users. -/
structure Connection where
  id : Nat
  requester : Nat
  recipient : Nat
  status : ConnStatus
  createdAt : Nat := 0
  updatedAt : Nat := 0
deriving DecidableEq

/-- A User document (only the fields the connection and chat routes read). -/
structure User where
  id : Nat
  name : String := ""
  email : String := ""
  role : String := ""
deriving DecidableEq

/-- Error outcomes of the route handlers, classified by their HTTP meaning:
400 for invalid input, 404 for a failed scoped lookup, 400 "already exists"
for the duplicate-connection conflict, 403 for permission failures. -/
inductive ApiError
  | invalidArgument
  | notFound
  | conflict
  | forbidden
deriving DecidableEq

/-- Filter of the Connection.find in GET /discover: connections involving uid. -/
def involvesUser (uid : Nat) (c : Connection) : Bool :=
  c.requester == uid || c.recipient == uid

/-- The connectedUserIds set built by GET /discover: for every connection
involving the user, both endpoints other than the user, plus the user itself. -/
def connectedUserIds (uid : Nat) (conns : List Connection) : List Nat :=
  ((conns.filter (involvesUser uid)).flatMap (fun c =>
    (if c.requester ≠ uid then [c.requester] else []) ++
    (if c.recipient ≠ uid then [c.recipient] else []))) ++ [uid]

/-- GET /discover: all users whose id is not in the excluded set. -/
def discover (uid : Nat) (conns : List Connection) (users : List User) : List User :=
  users.filter (fun u => !(connectedUserIds uid conns).contains u.id)

/-- The duplicate lookup of POST /request: any Connection between the
unordered pair, in either direction, whatever its status. -/
def pairPred (a b : Nat) (c : Connection) : Bool :=
  (c.requester == a && c.recipient == b) || (c.requester == b && c.recipient == a)

/-- Connection.findOne over both orderings of the pair. -/
def findBetween (a b : Nat) (conns : List Connection) : Option Connection :=
  conns.find? (pairPred a b)

/-- Modelled from the spec: the Connection schema file (models/Connection.js)
is not part of the repository snapshot; per the spec the POST /request
handler creates the new Connection in the pending state. -/
def newConnection (newId requesterId recipientId now : Nat) : Connection :=
  { id := newId, requester := requesterId, recipient := recipientId,
    status := ConnStatus.pending, createdAt := now, updatedAt := now }

/-- POST /request handler: reject self requests, reject when any Connection
already exists between the pair (checked before recipient existence),
404 when the recipient does not exist, otherwise insert a pending Connection. -/
def request (conns : List Connection) (userIds : List Nat)
    (requesterId recipientId newId now : Nat) :
    Except ApiError (List Connection × Connection) :=
  if requesterId == recipientId then .error .invalidArgument
  else
    match findBetween requesterId recipientId conns with
    | some _ => .error .conflict
    | none =>
      if userIds.contains recipientId then
        let c := newConnection newId requesterId recipientId now
        .ok (conns ++ [c], c)
      else .error .notFound

/-- DELETE /remove/:connectionId: 404 unless the connection exists and the
actor is requester or recipient, then delete the document by id. -/
def removeConnection (conns : List Connection) (uid cid : Nat) :
    Except ApiError (List Connection) :=
  match conns.find? (fun c => c.id == cid && (c.requester == uid || c.recipient == uid)) with
  | none => .error .notFound
  | some _ => .ok (conns.filter (fun c => !(c.id == cid)))

/-- The invariant of claim C1: at most one Connection document per unordered
pair of users, in whichever direction. -/
def AtMostOnePerPair (conns : List Connection) : Prop :=
  ∀ a b : Nat, conns.countP (pairPred a b) ≤ 1

theorem pairPred_true_iff (a b : Nat) (c : Connection) :
    pairPred a b c = true ↔
      (c.requester = a ∧ c.recipient = b) ∨ (c.requester = b ∧ c.recipient = a) := by
  simp [pairPred]

theorem pairPred_comm (a b : Nat) (c : Connection) :
    pairPred b a c = pairPred a b c := by
  unfold pairPred
  exact Bool.or_comm _ _

theorem request_conflict_of_between (conns : List Connection) (userIds : List Nat)
    (a b j now2 : Nat) (hab : (a == b) = false)
    (h : ∃ c ∈ conns, pairPred a b c = true) :
    request conns userIds a b j now2 = .error .conflict := by
  rcases h with ⟨c, hc, hpred⟩
  unfold request
  rw [if_neg (by simp_all)]
  cases hf : findBetween a b conns with
  | some _ => rfl
  | none =>
    exact absurd hpred ((List.find?_eq_none.mp hf) c hc)

/-- Claim C1: once a Request(A,B) has succeeded, a further Request in either
direction fails with Conflict; the at-most-one-Connection-per-unordered-pair
invariant is preserved; and after the created Connection is removed by
Remove, a fresh Request for the same pair succeeds again. -/
theorem request_unique_per_pair
    (conns : List Connection) (userIds : List Nat)
    (a b i now : Nat) (conns' : List Connection) (c : Connection)
    (hok : request conns userIds a b i now = .ok (conns', c))
    (hinv : AtMostOnePerPair conns)
    (hfresh : ∀ c' ∈ conns, c'.id ≠ i) :
    (∀ j now2, request conns' userIds a b j now2 = .error .conflict) ∧
    (∀ j now2, request conns' userIds b a j now2 = .error .conflict) ∧
    AtMostOnePerPair conns' ∧
    removeConnection conns' a c.id = .ok conns ∧
    (∀ j now2, request conns userIds a b j now2 =
      .ok (conns ++ [newConnection j a b now2], newConnection j a b now2)) := by
  unfold request at hok
  by_cases hab : (a == b) = true
  · rw [if_pos hab] at hok; exact absurd hok (by simp)
  · have hab' : (a == b) = false := by simpa using hab
    rw [if_neg hab] at hok
    cases hf : findBetween a b conns with
    | some c0 => rw [hf] at hok; exact absurd hok (by simp)
    | none =>
      rw [hf] at hok
      by_cases hcont : userIds.contains b = true
      · rw [if_pos hcont] at hok
        have hconns' : conns' = conns ++ [newConnection i a b now] := by
          cases hok; rfl
        have hc : c = newConnection i a b now := by
          cases hok; rfl
        have hnone := List.find?_eq_none.mp hf
        have hmempair : pairPred a b (newConnection i a b now) = true := by
          simp [pairPred, newConnection]
        refine ⟨?_, ?_, ?_, ?_, ?_⟩
        · intro j now2
          refine request_conflict_of_between _ _ _ _ _ _ hab' ?_
          exact ⟨newConnection i a b now, by simp [hconns'], hmempair⟩
        · intro j now2
          refine request_conflict_of_between _ _ _ _ _ _ (by simp_all [Nat.beq_eq]; omega) ?_
          refine ⟨newConnection i a b now, by simp [hconns'], ?_⟩
          rw [pairPred_comm]
          exact hmempair
        · intro x y
          rw [hconns', List.countP_append]
          by_cases hxy : pairPred x y (newConnection i a b now) = true
          · have h0 : conns.countP (pairPred x y) = 0 := by
              rw [List.countP_eq_zero]
              intro c' hc' hpc'
              rcases (pairPred_true_iff x y _).mp hxy with ⟨h1, h2⟩ | ⟨h1, h2⟩ <;>
                simp [newConnection] at h1 h2 <;>
                rcases (pairPred_true_iff x y c').mp hpc' with ⟨g1, g2⟩ | ⟨g1, g2⟩ <;>
                  exact (hnone c' hc') (by
                    rw [pairPred_true_iff]
                    subst h1; subst h2
                    first
                    | exact Or.inl ⟨g1, g2⟩
                    | exact Or.inr ⟨g1, g2⟩
                    | exact Or.inl ⟨g2, g1⟩
                    | exact Or.inr ⟨g2, g1⟩)
            simp [h0, List.countP_cons, hxy]
          · have h1 : List.countP (pairPred x y) [newConnection i a b now] = 0 := by
              simp [List.countP_cons, hxy]
            rw [h1]
            simpa using hinv x y
        · unfold removeConnection
          have hcid : c.id = i := by rw [hc]; rfl
          have hcfind :
              conns'.find? (fun c' => c'.id == c.id &&
                (c'.requester == a || c'.recipient == a)) =
              some (newConnection i a b now) := by
            rw [hconns', hcid]
            rw [List.find?_append]
            have hl : conns.find? (fun c' => c'.id == i &&
                (c'.requester == a || c'.recipient == a)) = none := by
              rw [List.find?_eq_none]
              intro c' hc'
              simp [hfresh c' hc']
            simp [hl, newConnection]
          rw [hcfind]
          rw [hconns', hcid, List.filter_append]
          have h2 : conns.filter (fun c' => !(c'.id == i)) = conns := by
            rw [List.filter_eq_self]
            intro c' hc'
            simp [hfresh c' hc']
          simp [h2, newConnection]
        · intro j now2
          unfold request
          rw [if_neg hab, hf, if_pos hcont]
      · rw [if_neg hcont] at hok; exact absurd hok (by simp)

theorem request_unique_per_pair_witness :
    request [newConnection 0 1 2 0] [1, 2] 1 2 5 7 = .error .conflict := by
  have h := request_unique_per_pair [] [1, 2] 1 2 0 0
    [newConnection 0 1 2 0] (newConnection 0 1 2 0) rfl
    (fun _ _ => Nat.zero_le 1)
    (fun c' hc' => absurd hc' (List.not_mem_nil c'))
  exact h.1 5 7

/-- Claim C7: Discover(A) never returns A itself, and never returns a user
that has any Connection with A, in either direction and whatever its status. -/
theorem discover_excludes (uid : Nat) (conns : List Connection) (users : List User)
    (u : User) (hu : u ∈ discover uid conns users) :
    u.id ≠ uid ∧
    ∀ c ∈ conns,
      ¬((c.requester = uid ∧ c.recipient = u.id) ∨
        (c.requester = u.id ∧ c.recipient = uid)) := by
  unfold discover at hu
  rw [List.mem_filter] at hu
  obtain ⟨-, hnot⟩ := hu
  have hnotmem : u.id ∉ connectedUserIds uid conns := by
    intro hmem
    rw [Bool.not_eq_eq_eq_not, Bool.not_true] at hnot
    have hcont : (connectedUserIds uid conns).contains u.id = true :=
      List.contains_iff_exists_mem_beq.mpr ⟨u.id, hmem, by simp⟩
    rw [hnot] at hcont
    exact Bool.false_ne_true hcont
  have hself : u.id ≠ uid := by
    intro h
    apply hnotmem
    unfold connectedUserIds
    rw [List.mem_append]
    exact Or.inr (by simp [h])
  refine ⟨hself, ?_⟩
  rintro c hc (⟨h1, h2⟩ | ⟨h1, h2⟩) <;>
    apply hnotmem <;>
    unfold connectedUserIds <;>
    rw [List.mem_append] <;>
    refine Or.inl (List.mem_flatMap.mpr ⟨c, List.mem_filter.mpr ⟨hc, by simp [involvesUser, h1, h2]⟩, ?_⟩) <;>
    rw [List.mem_append]
  · exact Or.inr (by rw [h2]; simp [hself])
  · exact Or.inl (by rw [h1]; simp [hself])

theorem discover_excludes_witness :
    ((3 : Nat) ≠ 1) ∧
    ∀ c ∈ [newConnection 0 1 2 0],
      ¬((c.requester = 1 ∧ c.recipient = 3) ∨ (c.requester = 3 ∧ c.recipient = 1)) := by
  exact discover_excludes 1 [newConnection 0 1 2 0]
    [{ id := 1 }, { id := 2 }, { id := 3 }] { id := 3 } (by decide)

/-- Generic model of saving a document found by findOne (or of
findOneAndUpdate): replace the first element satisfying the filter. -/
def updateFirst (p : α → Bool) (f : α → α) : List α → List α
  | [] => []
  | x :: xs => if p x then f x :: xs else x :: updateFirst p f xs

theorem mem_of_mem_updateFirst {p : α → Bool} {f : α → α} {l : List α} {x : α}
    (hx : x ∈ updateFirst p f l) :
    x ∈ l ∨ ∃ y ∈ l, p y = true ∧ x = f y := by
  induction l with
  | nil => simp [updateFirst] at hx
  | cons a as ih =>
    unfold updateFirst at hx
    by_cases hpa : p a = true
    · rw [if_pos hpa] at hx
      rcases List.mem_cons.mp hx with h | h
      · exact Or.inr ⟨a, List.mem_cons_self a as, hpa, h⟩
      · exact Or.inl (List.mem_cons_of_mem a h)
    · rw [if_neg hpa] at hx
      rcases List.mem_cons.mp hx with h | h
      · exact Or.inl (h ▸ List.mem_cons_self a as)
      · rcases ih h with h' | ⟨y, hy, hpy, hxy⟩
        · exact Or.inl (List.mem_cons_of_mem a h')
        · exact Or.inr ⟨y, List.mem_cons_of_mem a hy, hpy, hxy⟩

theorem find?_updateFirst_none {p : α → Bool} {f : α → α} (key : α → Nat) (k : Nat)
    (l : List α)
    (hkey : ∀ x, p x = true → key x = k)
    (hf : ∀ x, p (f x) = false)
    (hnd : (l.map key).Nodup) :
    (updateFirst p f l).find? p = none := by
  induction l with
  | nil => rfl
  | cons a as ih =>
    rw [List.map_cons, List.nodup_cons] at hnd
    obtain ⟨hka, hnd'⟩ := hnd
    unfold updateFirst
    by_cases hpa : p a = true
    · rw [if_pos hpa]
      rw [List.find?_cons_of_neg _ (by simp [hf a])]
      rw [List.find?_eq_none]
      intro x hx hpx
      apply hka
      rw [hkey a hpa, ← hkey x hpx]
      exact List.mem_map_of_mem key hx
    · rw [if_neg hpa]
      rw [List.find?_cons_of_neg _ (by simp_all), ih hnd']

/-- The action parameter of PUT /respond, already validated to be
one of the strings accept / reject. -/
inductive RespondAction
  | accept
  | reject
deriving DecidableEq

/-- Filter of the Connection.findOne in PUT /respond: the document must have
the given id, the acting user as recipient, and pending status. -/
def respondPred (uid cid : Nat) (c : Connection) : Bool :=
  c.id == cid && c.recipient == uid && c.status == ConnStatus.pending

/-- The mutation performed by PUT /respond on the found connection. -/
def applyAction (act : RespondAction) (now : Nat) (c : Connection) : Connection :=
  { c with
    status := match act with | .accept => ConnStatus.accepted | .reject => ConnStatus.rejected,
    updatedAt := now }

/-- PUT /respond/:connectionId handler (for a validated action). -/
def respond (conns : List Connection) (uid cid : Nat) (act : RespondAction) (now : Nat) :
    Except ApiError (List Connection × Connection) :=
  match conns.find? (respondPred uid cid) with
  | none => .error .notFound
  | some c =>
    .ok (updateFirst (respondPred uid cid) (applyAction act now) conns, applyAction act now c)

/-- Claim C4: Respond fails with NotFound exactly when no Connection with the
given id, the actor as recipient, and pending status exists (so in particular
when invoked by the requester, or on a non-pending Connection); on success the
status becomes accepted or rejected according to the action and the update
timestamp is set. -/
theorem respond_scoped (conns : List Connection) (uid cid : Nat)
    (act : RespondAction) (now : Nat) :
    (respond conns uid cid act now = .error .notFound ↔
      ∀ c ∈ conns, ¬(c.id = cid ∧ c.recipient = uid ∧ c.status = ConnStatus.pending)) ∧
    (∀ conns' c', respond conns uid cid act now = .ok (conns', c') →
      c'.status = (match act with
                   | .accept => ConnStatus.accepted
                   | .reject => ConnStatus.rejected) ∧
      c'.updatedAt = now ∧
      ∃ c ∈ conns, c.id = cid ∧ c.recipient = uid ∧ c.status = ConnStatus.pending) := by
  have hiff : ∀ c : Connection, respondPred uid cid c = true ↔
      (c.id = cid ∧ c.recipient = uid ∧ c.status = ConnStatus.pending) := by
    intro c
    simp [respondPred, and_assoc]
  constructor
  · cases hf : conns.find? (respondPred uid cid) with
    | none =>
      have hval : respond conns uid cid act now = .error .notFound := by
        unfold respond; rw [hf]
      rw [hval]
      constructor
      · intro _ c hc hcand
        exact (List.find?_eq_none.mp hf) c hc ((hiff c).mpr hcand)
      · intro _
        rfl
    | some c =>
      have hval : respond conns uid cid act now =
          .ok (updateFirst (respondPred uid cid) (applyAction act now) conns,
               applyAction act now c) := by
        unfold respond; rw [hf]
      rw [hval]
      constructor
      · intro h
        simp at h
      · intro hall
        exact absurd ((hiff c).mp (List.find?_some hf))
          (hall c (List.mem_of_find?_eq_some hf))
  · intro conns' c' hok
    unfold respond at hok
    cases hf : conns.find? (respondPred uid cid) with
    | none => rw [hf] at hok; exact absurd hok (by simp)
    | some c =>
      rw [hf] at hok
      have hc' : c' = applyAction act now c := by
        cases hok; rfl
      refine ⟨by rw [hc']; rfl, by rw [hc']; rfl, c, List.mem_of_find?_eq_some hf,
        (hiff c).mp (List.find?_some hf)⟩

theorem respond_scoped_witness :
    (applyAction RespondAction.accept 9
        { id := 10, requester := 1, recipient := 2, status := ConnStatus.pending }).status =
      ConnStatus.accepted ∧
    (applyAction RespondAction.accept 9
        { id := 10, requester := 1, recipient := 2, status := ConnStatus.pending }).updatedAt = 9 := by
  have h := (respond_scoped
    [{ id := 10, requester := 1, recipient := 2, status := ConnStatus.pending }] 2 10
    RespondAction.accept 9).2
    [applyAction RespondAction.accept 9
        { id := 10, requester := 1, recipient := 2, status := ConnStatus.pending }]
    (applyAction RespondAction.accept 9
        { id := 10, requester := 1, recipient := 2, status := ConnStatus.pending })
    rfl
  exact ⟨h.1, h.2.1⟩

/-- A Message document. Exactly one of recipient / groupId is populated in
the documents the handlers create; the model does not assume it for the
database at large. -/
structure Message where
  id : Nat
  sender : Nat
  recipient : Option Nat := none
  groupId : Option Nat := none
  content : String := ""
  isGroup : Bool := false
  read : Bool := false
  messageType : String := "text"
  createdAt : Nat := 0
deriving DecidableEq

/-- Filter of the findOneAndUpdate in markAsRead: the message with the given
id, addressed to the acting user, still unread. -/
def markPred (uid mid : Nat) (m : Message) : Bool :=
  m.id == mid && m.recipient == some uid && m.read == false

/-- The update applied by markAsRead (and by the updateMany of GET /messages). -/
def setRead (m : Message) : Message :=
  { m with read := true }

/-- markAsRead controller: Message.findOneAndUpdate with the scoped filter,
returning the updated document, or a 404 when nothing matches. -/
def markAsRead (msgs : List Message) (uid mid : Nat) :
    Except ApiError (List Message × Message) :=
  match msgs.find? (markPred uid mid) with
  | none => .error .notFound
  | some m => .ok (updateFirst (markPred uid mid) setRead msgs, setRead m)

/-- Claim C5: MarkRead succeeds (setting read to true) exactly when a message
with the given id, addressed to the actor and unread, exists; it fails with
NotFound otherwise; and after a success a second call on the same message
returns NotFound. -/
theorem markAsRead_idempotent (msgs : List Message) (uid mid : Nat)
    (hids : (msgs.map Message.id).Nodup) :
    ((∃ out, markAsRead msgs uid mid = .ok out) ↔
      ∃ m ∈ msgs, m.id = mid ∧ m.recipient = some uid ∧ m.read = false) ∧
    (markAsRead msgs uid mid = .error .notFound ↔
      ¬∃ m ∈ msgs, m.id = mid ∧ m.recipient = some uid ∧ m.read = false) ∧
    (∀ msgs' m', markAsRead msgs uid mid = .ok (msgs', m') →
      m'.read = true ∧ markAsRead msgs' uid mid = .error .notFound) := by
  have hiff : ∀ m : Message, markPred uid mid m = true ↔
      (m.id = mid ∧ m.recipient = some uid ∧ m.read = false) := by
    intro m
    simp [markPred, and_assoc]
  have hsecond : ∀ msgs' m', markAsRead msgs uid mid = .ok (msgs', m') →
      m'.read = true ∧ markAsRead msgs' uid mid = .error .notFound := by
    intro msgs' m' hok
    unfold markAsRead at hok
    cases hf : msgs.find? (markPred uid mid) with
    | none => rw [hf] at hok; exact absurd hok (by simp)
    | some m =>
      rw [hf] at hok
      have hmsgs' : msgs' = updateFirst (markPred uid mid) setRead msgs := by
        cases hok; rfl
      have hm' : m' = setRead m := by
        cases hok; rfl
      refine ⟨by rw [hm']; rfl, ?_⟩
      unfold markAsRead
      rw [hmsgs', find?_updateFirst_none Message.id mid msgs
        (fun x hx => by simpa using ((hiff x).mp hx).1)
        (fun x => by simp [markPred, setRead]) hids]
  cases hf : msgs.find? (markPred uid mid) with
  | none =>
    refine ⟨?_, ?_, hsecond⟩
    · constructor
      · rintro ⟨out, hout⟩
        unfold markAsRead at hout
        rw [hf] at hout
        exact absurd hout (by simp)
      · rintro ⟨m, hm, hcand⟩
        exact absurd ((hiff m).mpr hcand) ((List.find?_eq_none.mp hf) m hm)
    · constructor
      · rintro - ⟨m, hm, hcand⟩
        exact absurd ((hiff m).mpr hcand) ((List.find?_eq_none.mp hf) m hm)
      · intro _
        unfold markAsRead
        rw [hf]
  | some m =>
    refine ⟨?_, ?_, hsecond⟩
    · constructor
      · intro _
        exact ⟨m, List.mem_of_find?_eq_some hf, (hiff m).mp (List.find?_some hf)⟩
      · intro _
        unfold markAsRead
        rw [hf]
        exact ⟨_, rfl⟩
    · constructor
      · intro h
        unfold markAsRead at h
        rw [hf] at h
        exact absurd h (by simp)
      · intro hnone
        exact absurd ⟨m, List.mem_of_find?_eq_some hf, (hiff m).mp (List.find?_some hf)⟩ hnone

theorem markAsRead_idempotent_witness :
    markAsRead [setRead { id := 0, sender := 1, recipient := some 2 }] 2 0 =
      .error .notFound := by
  have h := (markAsRead_idempotent [{ id := 0, sender := 1, recipient := some 2 }] 2 0
    (by decide)).2.2
    [setRead { id := 0, sender := 1, recipient := some 2 }]
    (setRead { id := 0, sender := 1, recipient := some 2 })
    rfl
  exact h.2

/-- Descending insertion sort by a natural-number key: models how the store
sorts on createdAt: -1 or updatedAt: -1. -/
def sortDescBy (key : α → Nat) (l : List α) : List α :=
  l.insertionSort (fun a b => key b ≤ key a)

instance instKeyDescTotal (key : α → Nat) : IsTotal α (fun a b => key b ≤ key a) :=
  ⟨fun a b => Nat.le_total (key b) (key a)⟩

instance instKeyDescTrans (key : α → Nat) : IsTrans α (fun a b => key b ≤ key a) :=
  ⟨fun _ _ _ h1 h2 => Nat.le_trans h2 h1⟩

theorem mem_sortDescBy (key : α → Nat) (l : List α) (x : α) :
    x ∈ sortDescBy key l ↔ x ∈ l :=
  List.mem_insertionSort _

theorem countP_sortDescBy (key : α → Nat) (p : α → Bool) (l : List α) :
    (sortDescBy key l).countP p = l.countP p :=
  (List.perm_insertionSort _ l).countP_eq p

theorem sorted_sortDescBy (key : α → Nat) (l : List α) :
    (sortDescBy key l).Pairwise (fun a b => key b ≤ key a) :=
  List.sorted_insertionSort _ l

theorem head?_key_max (key : α → Nat) (l : List α)
    (hp : l.Pairwise (fun a b => key b ≤ key a)) (x : α) (hx : x ∈ l)
    (h : α) (hh : l.head? = some h) : key x ≤ key h := by
  cases l with
  | nil => simp at hx
  | cons a t =>
    rw [List.head?_cons] at hh
    cases hh
    rcases List.mem_cons.mp hx with rfl | hxt
    · exact Nat.le_refl _
    · exact (List.pairwise_cons.mp hp).1 x hxt

theorem head?_sortDescBy_strict_max (key : α → Nat) (l : List α) (x : α)
    (hx : x ∈ l) (hmax : ∀ y ∈ l, y ≠ x → key y < key x) :
    (sortDescBy key l).head? = some x := by
  have hxs : x ∈ sortDescBy key l := (mem_sortDescBy key l x).mpr hx
  cases hs : sortDescBy key l with
  | nil => rw [hs] at hxs; simp at hxs
  | cons a t =>
    rw [hs] at hxs
    rw [List.head?_cons]
    rcases List.mem_cons.mp hxs with rfl | hxt
    · rfl
    · have hp := sorted_sortDescBy key l
      rw [hs] at hp
      have hle : key x ≤ key a := (List.pairwise_cons.mp hp).1 x hxt
      have ha : a ∈ l := (mem_sortDescBy key l a).mp (hs ▸ List.mem_cons_self a t)
      by_cases hax : a = x
      · rw [hax]
      · exact absurd hle (Nat.not_le.mpr (hmax a ha hax))

theorem mem_take_of_head? (l : List α) (x : α) (n : Nat)
    (hh : l.head? = some x) (hn : 1 ≤ n) : x ∈ l.take n := by
  cases l with
  | nil => simp at hh
  | cons a t =>
    rw [List.head?_cons] at hh
    cases hh
    cases n with
    | zero => exact absurd hn (by simp)
    | succ k => exact List.mem_cons_self _ _

/-- A Group document. -/
structure Group where
  id : Nat
  name : String
  description : String := ""
  creator : Nat
  members : List Nat
  lastMessage : Option Nat := none
  groupType : String := "private"
  createdAt : Nat := 0
  updatedAt : Nat := 0
deriving DecidableEq

/-- The message collection and the group collection together, as touched by
the POST /send handler. -/
structure ChatState where
  msgs : List Message
  groups : List Group
deriving DecidableEq

/-- Filter of the direct-conversation Message.find in GET /messages/:chatId. -/
def directPred (uid chatId : Nat) (m : Message) : Bool :=
  (m.sender == uid && m.recipient == some chatId && m.isGroup == false) ||
  (m.sender == chatId && m.recipient == some uid && m.isGroup == false)

/-- Filter of the group Message.find in GET /messages/:chatId. -/
def groupPred (gid : Nat) (m : Message) : Bool :=
  m.groupId == some gid

/-- Pagination of GET /messages: the store applies skip before limit, so the
page is drop ((page-1)*limit) then take (limit*page) of the sorted list. -/
def pageWindow (page limit : Nat) (l : List α) : List α :=
  (l.drop ((page - 1) * limit)).take (limit * page)

/-- The fetch step of GET /messages/:chatId: group query when the isGroup
query parameter is the string true, the direct-conversation query otherwise. -/
def fetchMessages (msgs : List Message) (uid chatId : Nat) (isGroupStr : String)
    (page limit : Nat) : List Message :=
  if isGroupStr = "true" then
    pageWindow page limit (sortDescBy Message.createdAt (msgs.filter (groupPred chatId)))
  else
    pageWindow page limit (sortDescBy Message.createdAt (msgs.filter (directPred uid chatId)))

/-- Per-document effect of the updateMany in the isGroup === false branch:
mark unread messages from the counterpart to the viewer as read. -/
def directMark (uid chatId : Nat) (m : Message) : Message :=
  if m.sender == chatId && m.recipient == some uid && m.read == false then setRead m else m

/-- Per-document effect of the updateMany in the other branch: mark unread
group messages not sent by the viewer as read. -/
def groupMark (uid chatId : Nat) (m : Message) : Message :=
  if m.groupId == some chatId && !(m.sender == uid) && m.read == false then setRead m else m

/-- The update step GET /messages actually runs, branching on the string
value of the isGroup query parameter. -/
def markStep (uid chatId : Nat) (isGroupStr : String) (m : Message) : Message :=
  if isGroupStr = "false" then directMark uid chatId m else groupMark uid chatId m

/-- GET /messages/:chatId handler: fetch one page (newest first), mark the
unread messages from the counterpart (or from non-self group members) as read, and
return the page reversed into chronological order, together with the updated
message collection. -/
def getMessages (msgs : List Message) (uid chatId : Nat) (isGroupStr : String)
    (page limit : Nat) : List Message × List Message :=
  let fetched := fetchMessages msgs uid chatId isGroupStr page limit
  let msgs' :=
    if isGroupStr = "false" then msgs.map (directMark uid chatId)
    else msgs.map (groupMark uid chatId)
  (fetched.reverse, msgs')

/-- Model of the JavaScript String.prototype.trim: strip leading and
trailing whitespace. -/
def trimString (s : String) : String :=
  String.mk (((s.data.dropWhile Char.isWhitespace).reverse.dropWhile Char.isWhitespace).reverse)

/-- Request body of POST /send. -/
structure SendInput where
  recipient : Option Nat := none
  groupId : Option Nat := none
  content : String
  isGroup : Bool := false

/-- POST /send handler: 400 when the content is empty after trimming;
otherwise persist the message with read = false, with exactly one of
recipient / groupId populated per the isGroup flag, touching the updatedAt of the
target group for group sends. -/
def sendMessage (st : ChatState) (senderId : Nat) (inp : SendInput)
    (newId now : Nat) : Except ApiError (ChatState × Message) :=
  if trimString inp.content = "" then .error .invalidArgument
  else
    let m : Message :=
      { id := newId, sender := senderId, content := trimString inp.content,
        isGroup := inp.isGroup, read := false,
        recipient := if inp.isGroup then none else inp.recipient,
        groupId := if inp.isGroup then inp.groupId else none,
        createdAt := now }
    let groups' :=
      if inp.isGroup then
        st.groups.map (fun g => if some g.id == inp.groupId then { g with updatedAt := now } else g)
      else st.groups
    .ok ({ msgs := st.msgs ++ [m], groups := groups' }, m)

/-- Claim C8: SendMessage fails with InvalidArgument whenever the content is
empty after trimming, and every message a successful call persists has
read = false. -/
theorem sendMessage_validates (st : ChatState) (senderId : Nat) (inp : SendInput)
    (newId now : Nat) :
    (trimString inp.content = "" →
      sendMessage st senderId inp newId now = .error .invalidArgument) ∧
    (∀ st' m, sendMessage st senderId inp newId now = .ok (st', m) →
      m.read = false ∧ st'.msgs = st.msgs ++ [m]) := by
  constructor
  · intro hempty
    unfold sendMessage
    rw [if_pos hempty]
  · intro st' m hok
    unfold sendMessage at hok
    by_cases hempty : trimString inp.content = ""
    · rw [if_pos hempty] at hok; exact absurd hok (by simp)
    · rw [if_neg hempty] at hok
      refine ⟨?_, ?_⟩
      · cases hok; rfl
      · cases hok; rfl

theorem sendMessage_validates_witness :
    sendMessage { msgs := [], groups := [] } 1
      { recipient := some 2, content := "   " } 0 5 = .error .invalidArgument ∧
    ({ id := 0, sender := 1, recipient := some 2, content := "hi",
       createdAt := 5 } : Message).read = false := by
  constructor
  · exact (sendMessage_validates { msgs := [], groups := [] } 1
      { recipient := some 2, content := "   " } 0 5).1 rfl
  · exact ((sendMessage_validates { msgs := [], groups := [] } 1
      { recipient := some 2, content := "hi" } 0 5).2
      { msgs := [{ id := 0, sender := 1, recipient := some 2, content := "hi",
                    createdAt := 5 }], groups := [] }
      { id := 0, sender := 1, recipient := some 2, content := "hi", createdAt := 5 }
      rfl).1

/-- Claim C10: when the isGroup query parameter is neither the string true
nor the string false, GET /messages fetches with the direct-conversation
query but runs the group branch of the read-marking update, which leaves
every message without a groupId (in particular every direct message)
untouched. -/
theorem getMessages_isGroup_mismatch (msgs : List Message) (uid chatId : Nat)
    (s : String) (page limit : Nat) (hne : s ≠ "true") (hnf : s ≠ "false") :
    (getMessages msgs uid chatId s page limit).1 =
      (pageWindow page limit
        (sortDescBy Message.createdAt (msgs.filter (directPred uid chatId)))).reverse ∧
    (getMessages msgs uid chatId s page limit).2 = msgs.map (groupMark uid chatId) ∧
    (∀ m : Message, m.groupId = none → groupMark uid chatId m = m) := by
  refine ⟨?_, ?_, ?_⟩
  · unfold getMessages fetchMessages
    rw [if_neg hne]
  · unfold getMessages
    simp only [if_neg hnf]
  · intro m hnone
    unfold groupMark
    rw [if_neg]
    simp [hnone]

theorem getMessages_isGroup_mismatch_witness :
    (getMessages [{ id := 0, sender := 1, recipient := some 2, content := "hi",
                    read := false, createdAt := 3 }] 2 1 "" 1 50).2 =
      [{ id := 0, sender := 1, recipient := some 2, content := "hi",
         read := false, createdAt := 3 }] := by
  have h := getMessages_isGroup_mismatch
    [{ id := 0, sender := 1, recipient := some 2, content := "hi",
       read := false, createdAt := 3 }] 2 1 "" 1 50 (by decide) (by decide)
  rw [h.2.1, List.map_cons, List.map_nil,
    h.2.2 { id := 0, sender := 1, recipient := some 2, content := "hi",
            read := false, createdAt := 3 } rfl]

theorem mem_page_of_strict_latest (msgs : List Message) (q : Message → Bool)
    (m : Message) (limit : Nat) (hlim : 1 ≤ limit)
    (hq : q m = true) (hmem : m ∈ msgs)
    (hmax : ∀ y ∈ msgs, y ≠ m → y.createdAt < m.createdAt) :
    m ∈ (pageWindow 1 limit (sortDescBy Message.createdAt (msgs.filter q))).reverse := by
  rw [List.mem_reverse]
  unfold pageWindow
  rw [show (1 - 1) * limit = 0 by simp, List.drop_zero]
  refine mem_take_of_head? _ _ _ ?_ ?_
  · refine head?_sortDescBy_strict_max _ _ _ (List.mem_filter.mpr ⟨hmem, hq⟩) ?_
    intro y hy hne
    exact hmax y (List.mem_filter.mp hy).1 hne
  · calc 1 ≤ limit := hlim
      _ ≤ limit * 1 := by simp

theorem pred_of_mem_fetch (msgs : List Message) (q : Message → Bool) (page limit : Nat)
    (m : Message)
    (hm : m ∈ (pageWindow page limit (sortDescBy Message.createdAt (msgs.filter q))).reverse) :
    m ∈ msgs ∧ q m = true := by
  rw [List.mem_reverse] at hm
  unfold pageWindow at hm
  have h1 := List.mem_of_mem_take hm
  have h2 := List.mem_of_mem_drop h1
  rw [mem_sortDescBy] at h2
  exact List.mem_filter.mp h2

/-- Claim C9: a message persisted by a successful SendMessage, being the
newest in the store, appears on the first page returned by a subsequent
GetMessages on the same conversation by either participant (or, for a group
send, by any viewer of that group), with its content and sender intact. -/
theorem send_then_get_roundtrip
    (st : ChatState) (senderId : Nat) (inp : SendInput) (newId now limit : Nat)
    (st' : ChatState) (m : Message)
    (hok : sendMessage st senderId inp newId now = .ok (st', m))
    (hnew : ∀ m' ∈ st.msgs, m'.createdAt < now)
    (hlim : 1 ≤ limit) :
    m.sender = senderId ∧ m.content = trimString inp.content ∧
    (∀ r, inp.isGroup = false → inp.recipient = some r →
      m ∈ (getMessages st'.msgs r senderId "false" 1 limit).1 ∧
      m ∈ (getMessages st'.msgs senderId r "false" 1 limit).1) ∧
    (∀ g viewer, inp.isGroup = true → inp.groupId = some g →
      m ∈ (getMessages st'.msgs viewer g "true" 1 limit).1) := by
  unfold sendMessage at hok
  by_cases hempty : trimString inp.content = ""
  · rw [if_pos hempty] at hok; exact absurd hok (by simp)
  · rw [if_neg hempty] at hok
    have hmsgs : st'.msgs = st.msgs ++ [m] := by cases hok; rfl
    have hm : m =
        { id := newId, sender := senderId, content := trimString inp.content,
          isGroup := inp.isGroup, read := false,
          recipient := if inp.isGroup then none else inp.recipient,
          groupId := if inp.isGroup then inp.groupId else none,
          createdAt := now } := by cases hok; rfl
    have hcreated : m.createdAt = now := by rw [hm]
    have hmax : ∀ y ∈ st.msgs ++ [m], y ≠ m → y.createdAt < m.createdAt := by
      intro y hy hne
      rcases List.mem_append.mp hy with h | h
      · rw [hcreated]; exact hnew y h
      · exact absurd (List.mem_singleton.mp h) hne
    have hmem : m ∈ st.msgs ++ [m] := List.mem_append.mpr (Or.inr (List.mem_singleton.mpr rfl))
    refine ⟨by rw [hm], by rw [hm], ?_, ?_⟩
    · intro r hng hrec
      constructor
      · show m ∈ (fetchMessages st'.msgs r senderId "false" 1 limit).reverse
        unfold fetchMessages
        rw [if_neg (by decide), hmsgs]
        refine mem_page_of_strict_latest _ _ _ _ hlim ?_ hmem hmax
        rw [hm]
        simp [directPred, hng, hrec]
      · show m ∈ (fetchMessages st'.msgs senderId r "false" 1 limit).reverse
        unfold fetchMessages
        rw [if_neg (by decide), hmsgs]
        refine mem_page_of_strict_latest _ _ _ _ hlim ?_ hmem hmax
        rw [hm]
        simp [directPred, hng, hrec]
    · intro g viewer hg hgid
      show m ∈ (fetchMessages st'.msgs viewer g "true" 1 limit).reverse
      unfold fetchMessages
      rw [if_pos rfl, hmsgs]
      refine mem_page_of_strict_latest _ _ _ _ hlim ?_ hmem hmax
      rw [hm]
      simp [groupPred, hg, hgid]

theorem send_then_get_roundtrip_witness :
    ({ id := 0, sender := 1, recipient := some 2, content := "hi",
       createdAt := 5 } : Message) ∈
      (getMessages [{ id := 0, sender := 1, recipient := some 2, content := "hi",
                      createdAt := 5 }] 2 1 "false" 1 50).1 := by
  exact ((send_then_get_roundtrip { msgs := [], groups := [] } 1
    { recipient := some 2, content := "hi" } 0 5 50
    { msgs := [{ id := 0, sender := 1, recipient := some 2, content := "hi",
                 createdAt := 5 }], groups := [] }
    { id := 0, sender := 1, recipient := some 2, content := "hi", createdAt := 5 }
    rfl (by simp) (by decide)).2.2.1 2 rfl rfl).1

/-- Which returned messages claim C3 counts as addressed to the viewer:
the recipient of a direct fetch, any non-sender of a group fetch. -/
def addressedToViewer (uid : Nat) (isGroupStr : String) (m : Message) : Bool :=
  if isGroupStr = "true" then !(m.sender == uid) else m.recipient == some uid

/-- A message a user sent to themself, the input refuting claim C3 as
stated: the self conversation marks a message sent by the viewer. -/
def selfMsg : Message :=
  { id := 0, sender := 7, recipient := some 7, content := "x", read := false }

/-- Claim C3 as stated fails: GetMessages(7, 7, false) returns the unread
self-addressed message of the viewer and flips its read flag, although its
sender is the viewer. -/
theorem getMessages_marks_sender_cex :
    selfMsg.sender = 7 ∧ selfMsg.read = false ∧
    selfMsg ∈ (getMessages [selfMsg] 7 7 "false" 1 50).1 ∧
    (getMessages [selfMsg] 7 7 "false" 1 50).2 = [setRead selfMsg] ∧
    (setRead selfMsg).read = true := by
  refine ⟨rfl, rfl, ?_, ?_, rfl⟩ <;> decide

/-- Claim C3 amended: for a group fetch, or a direct fetch of a conversation
with another user, every returned message addressed to the viewer ends up
read in the store, and no message sent by the viewer is changed. -/
theorem getMessages_marks_read (msgs : List Message) (uid chatId : Nat)
    (s : String) (page limit : Nat)
    (hmode : s = "true" ∨ (s = "false" ∧ chatId ≠ uid)) :
    (getMessages msgs uid chatId s page limit).2 = msgs.map (markStep uid chatId s) ∧
    (∀ m ∈ (getMessages msgs uid chatId s page limit).1,
      addressedToViewer uid s m = true → (markStep uid chatId s m).read = true) ∧
    (∀ m : Message, m.sender = uid → markStep uid chatId s m = m) := by
  rcases hmode with rfl | ⟨rfl, hne⟩
  · have hstep : markStep uid chatId "true" = groupMark uid chatId :=
      funext fun m => by unfold markStep; rw [if_neg (by decide)]
    refine ⟨?_, ?_, ?_⟩
    · show (if ("true" : String) = "false" then msgs.map (directMark uid chatId)
        else msgs.map (groupMark uid chatId)) = msgs.map (markStep uid chatId "true")
      rw [if_neg (by decide), hstep]
    · intro m hm haddr
      have hfetch : m ∈ msgs ∧ groupPred chatId m = true := by
        refine pred_of_mem_fetch msgs _ page limit m ?_
        have : (getMessages msgs uid chatId "true" page limit).1 =
            (pageWindow page limit
              (sortDescBy Message.createdAt (msgs.filter (groupPred chatId)))).reverse := by
          show (fetchMessages msgs uid chatId "true" page limit).reverse = _
          unfold fetchMessages
          rw [if_pos rfl]
        rw [this] at hm
        exact hm
      have hgp : (m.groupId == some chatId) = true := by
        have := hfetch.2
        unfold groupPred at this
        exact this
      have hsender : (!(m.sender == uid)) = true := by
        unfold addressedToViewer at haddr
        rw [if_pos rfl] at haddr
        exact haddr
      rw [hstep]
      unfold groupMark
      by_cases hread : m.read = false
      · rw [if_pos (by rw [hgp, hsender, hread]; rfl)]
        rfl
      · rw [if_neg (by simp [hread])]
        simpa using hread
    · intro m hms
      rw [hstep]
      unfold groupMark
      rw [if_neg (by simp [hms])]
  · have hstep : markStep uid chatId "false" = directMark uid chatId :=
      funext fun m => by unfold markStep; rw [if_pos rfl]
    refine ⟨?_, ?_, ?_⟩
    · show (if ("false" : String) = "false" then msgs.map (directMark uid chatId)
        else msgs.map (groupMark uid chatId)) = msgs.map (markStep uid chatId "false")
      rw [if_pos rfl, hstep]
    · intro m hm haddr
      have hfetch : m ∈ msgs ∧ directPred uid chatId m = true := by
        refine pred_of_mem_fetch msgs _ page limit m ?_
        have : (getMessages msgs uid chatId "false" page limit).1 =
            (pageWindow page limit
              (sortDescBy Message.createdAt (msgs.filter (directPred uid chatId)))).reverse := by
          show (fetchMessages msgs uid chatId "false" page limit).reverse = _
          unfold fetchMessages
          rw [if_neg (by decide)]
        rw [this] at hm
        exact hm
      have hrec : m.recipient = some uid := by
        have := haddr
        unfold addressedToViewer at this
        rw [if_neg (by decide)] at this
        simpa using this
      have hsender : m.sender = chatId := by
        have hq := hfetch.2
        unfold directPred at hq
        simp only [Bool.or_eq_true, Bool.and_eq_true, beq_iff_eq] at hq
        rcases hq with ⟨⟨h1, h2⟩, h3⟩ | ⟨⟨h1, h2⟩, h3⟩
        · exfalso
          rw [hrec] at h2
          exact hne (Option.some.inj h2).symm
        · exact h1
      rw [hstep]
      unfold directMark
      by_cases hread : m.read = false
      · rw [if_pos (by simp [hsender, hrec, hread])]
        rfl
      · rw [if_neg (by simp [hread])]
        simpa using hread
    · intro m hms
      rw [hstep]
      unfold directMark
      rw [if_neg]
      simp only [Bool.and_eq_true, beq_iff_eq]
      intro hand
      exact hne (hand.1.1.symm.trans hms)

theorem getMessages_marks_read_witness :
    (markStep 2 1 "false"
      { id := 0, sender := 1, recipient := some 2, content := "hi",
        read := false, createdAt := 3 }).read = true := by
  refine (getMessages_marks_read
    [{ id := 0, sender := 1, recipient := some 2, content := "hi",
       read := false, createdAt := 3 }] 2 1 "false" 1 50
    (Or.inr ⟨rfl, by decide⟩)).2.1
    { id := 0, sender := 1, recipient := some 2, content := "hi",
      read := false, createdAt := 3 } (by decide) (by decide)

theorem nat_contains_iff_mem (l : List Nat) (x : Nat) :
    l.contains x = true ↔ x ∈ l := by
  rw [List.contains_iff_exists_mem_beq]
  simp

/-- JavaScript new Set insertion-order deduplication, keeping the first
occurrence of every element. -/
def dedupFirstAux (seen : List Nat) : List Nat → List Nat
  | [] => []
  | a :: l =>
    if seen.contains a then dedupFirstAux seen l
    else a :: dedupFirstAux (a :: seen) l

/-- The member list produced by new Set in POST /groups. -/
def dedupFirst (l : List Nat) : List Nat :=
  dedupFirstAux [] l

theorem mem_dedupFirstAux (l : List Nat) :
    ∀ (seen : List Nat) (x : Nat),
      x ∈ dedupFirstAux seen l ↔ (x ∈ l ∧ x ∉ seen) := by
  induction l with
  | nil => intro seen x; simp [dedupFirstAux]
  | cons a l ih =>
    intro seen x
    unfold dedupFirstAux
    by_cases hc : seen.contains a = true
    · rw [if_pos hc, ih]
      constructor
      · rintro ⟨hxl, hxs⟩
        exact ⟨List.mem_cons_of_mem a hxl, hxs⟩
      · rintro ⟨hor, hxs⟩
        rcases List.mem_cons.mp hor with rfl | hxl
        · exact absurd ((nat_contains_iff_mem seen x).mp hc) hxs
        · exact ⟨hxl, hxs⟩
    · rw [if_neg hc]
      constructor
      · intro hx
        rcases List.mem_cons.mp hx with rfl | hx'
        · refine ⟨List.mem_cons_self x l, ?_⟩
          intro hxs
          exact hc ((nat_contains_iff_mem seen x).mpr hxs)
        · obtain ⟨hxl, hxs⟩ := (ih (a :: seen) x).mp hx'
          exact ⟨List.mem_cons_of_mem a hxl,
            fun hmem => hxs (List.mem_cons_of_mem a hmem)⟩
      · rintro ⟨hor, hxs⟩
        rcases List.mem_cons.mp hor with rfl | hxl
        · exact List.mem_cons_self x _
        · by_cases hxa : x = a
          · exact hxa ▸ List.mem_cons_self a _
          · refine List.mem_cons_of_mem a ((ih (a :: seen) x).mpr ⟨hxl, ?_⟩)
            intro hmem
            rcases List.mem_cons.mp hmem with h | h
            · exact hxa h
            · exact hxs h

theorem mem_dedupFirst (l : List Nat) (x : Nat) :
    x ∈ dedupFirst l ↔ x ∈ l := by
  rw [dedupFirst, mem_dedupFirstAux]
  simp

/-- POST /groups: validate name and members, deduplicate the member list
with the creator force-included, persist. -/
def createGroup (groups : List Group) (creatorId : Nat) (name description : String)
    (members : List Nat) (newId now : Nat) : Except ApiError (List Group × Group) :=
  if trimString name = "" then .error .invalidArgument
  else if members.isEmpty then .error .invalidArgument
  else
    let g : Group :=
      { id := newId, name := trimString name, description := trimString description,
        creator := creatorId, members := dedupFirst (members ++ [creatorId]),
        createdAt := now, updatedAt := now }
    .ok (groups ++ [g], g)

/-- POST /groups/:groupId/members: creator-only; 400 when every proposed
member is already present; append the genuinely new members. -/
def addMembers (groups : List Group) (uid gid : Nat) (proposed : List Nat) :
    Except ApiError (List Group × Group) :=
  match groups.find? (fun g => g.id == gid) with
  | none => .error .notFound
  | some g =>
    if !(g.creator == uid) then .error .forbidden
    else
      let newMembers := proposed.filter (fun x => !(g.members.contains x))
      if newMembers.isEmpty then .error .invalidArgument
      else
        let g' := { g with members := g.members ++ newMembers }
        .ok (updateFirst (fun h => h.id == gid) (fun _ => g') groups, g')

/-- DELETE /groups/:groupId/members/:memberId: the creator may remove anyone
and a member may remove themself; the member list is filtered by id. -/
def removeMember (groups : List Group) (uid gid memberId : Nat) :
    Except ApiError (List Group × Group) :=
  match groups.find? (fun g => g.id == gid) with
  | none => .error .notFound
  | some g =>
    if !(g.creator == uid) && !(memberId == uid) then .error .forbidden
    else
      let g' := { g with members := g.members.filter (fun x => !(x == memberId)) }
      .ok (updateFirst (fun h => h.id == gid) (fun _ => g') groups, g')

/-- The invariant claimed by C6. -/
def CreatorInMembers (groups : List Group) : Prop :=
  ∀ g ∈ groups, g.creator ∈ g.members

/-- The group refuting claim C6 as stated: its creator removes themself. -/
def soloGroup : Group :=
  { id := 0, name := "g", creator := 1, members := [1, 2] }

/-- Claim C6 as stated fails: RemoveMember lets the creator remove themself
(the permission check allows any self-removal), leaving the creator outside
the member list. -/
theorem creator_removal_cex :
    removeMember [soloGroup] 1 0 1 =
      .ok ([{ soloGroup with members := [2] }], { soloGroup with members := [2] }) ∧
    ({ soloGroup with members := [2] } : Group).creator = 1 ∧
    (1 : Nat) ∉ ({ soloGroup with members := [2] } : Group).members := by
  refine ⟨rfl, rfl, by decide⟩

/-- Claim C6 amended: CreateGroup always includes the creator among the
members, and AddMembers preserves the creator-in-members invariant; so does
RemoveMember, except when the removed member is the creator themself. -/
theorem creator_in_members_preserved :
    (∀ (groups : List Group) (creatorId : Nat) (name description : String)
       (members : List Nat) (newId now : Nat) (groups' : List Group) (g : Group),
       CreatorInMembers groups →
       createGroup groups creatorId name description members newId now = .ok (groups', g) →
       g.creator ∈ g.members ∧ CreatorInMembers groups') ∧
    (∀ (groups : List Group) (uid gid : Nat) (proposed : List Nat)
       (groups' : List Group) (g' : Group),
       CreatorInMembers groups →
       addMembers groups uid gid proposed = .ok (groups', g') →
       g'.creator ∈ g'.members ∧ CreatorInMembers groups') ∧
    (∀ (groups : List Group) (uid gid memberId : Nat)
       (groups' : List Group) (g' : Group),
       CreatorInMembers groups →
       removeMember groups uid gid memberId = .ok (groups', g') →
       memberId ≠ g'.creator →
       g'.creator ∈ g'.members ∧ CreatorInMembers groups') := by
  refine ⟨?_, ?_, ?_⟩
  · intro groups creatorId name description members newId now groups' g hinv hok
    unfold createGroup at hok
    by_cases h1 : trimString name = ""
    · rw [if_pos h1] at hok; exact absurd hok (by simp)
    · rw [if_neg h1] at hok
      by_cases h2 : members.isEmpty = true
      · rw [if_pos h2] at hok; exact absurd hok (by simp)
      · rw [if_neg h2] at hok
        have hg : g =
            { id := newId, name := trimString name, description := trimString description,
              creator := creatorId, members := dedupFirst (members ++ [creatorId]),
              createdAt := now, updatedAt := now } := by cases hok; rfl
        have hgs : groups' = groups ++ [g] := by cases hok; rfl
        have hcm : g.creator ∈ g.members := by
          rw [hg]
          exact (mem_dedupFirst _ _).mpr (List.mem_append.mpr (Or.inr (by simp)))
        refine ⟨hcm, ?_⟩
        intro h hmem
        rw [hgs] at hmem
        rcases List.mem_append.mp hmem with h' | h'
        · exact hinv h h'
        · rw [List.mem_singleton.mp h']
          exact hcm
  · intro groups uid gid proposed groups' g' hinv hok
    unfold addMembers at hok
    split at hok
    · exact absurd hok (by simp)
    · next g hf =>
      by_cases hcr : (!(g.creator == uid)) = true
      · rw [if_pos hcr] at hok; exact absurd hok (by simp)
      · rw [if_neg hcr] at hok
        by_cases hne : (proposed.filter (fun x => !(g.members.contains x))).isEmpty = true
        · rw [if_pos hne] at hok; exact absurd hok (by simp)
        · rw [if_neg hne] at hok
          have hg' : g' = { g with
              members := g.members ++ proposed.filter (fun x => !(g.members.contains x)) } := by
            cases hok; rfl
          have hgs : groups' =
              updateFirst (fun h => h.id == gid) (fun _ => g') groups := by
            cases hok; rfl
          have hgmem : g ∈ groups := List.mem_of_find?_eq_some hf
          have hcm : g'.creator ∈ g'.members := by
            rw [hg']
            exact List.mem_append.mpr (Or.inl (hinv g hgmem))
          refine ⟨hcm, ?_⟩
          intro h hmem
          rw [hgs] at hmem
          rcases mem_of_mem_updateFirst hmem with h' | ⟨y, _, _, hy⟩
          · exact hinv h h'
          · rw [hy]
            exact hcm
  · intro groups uid gid memberId groups' g' hinv hok hnc
    unfold removeMember at hok
    split at hok
    · exact absurd hok (by simp)
    · next g hf =>
      by_cases hperm : (!(g.creator == uid) && !(memberId == uid)) = true
      · rw [if_pos hperm] at hok; exact absurd hok (by simp)
      · rw [if_neg hperm] at hok
        have hg' : g' = { g with
            members := g.members.filter (fun x => !(x == memberId)) } := by
          cases hok; rfl
        have hgs : groups' =
            updateFirst (fun h => h.id == gid) (fun _ => g') groups := by
          cases hok; rfl
        have hgmem : g ∈ groups := List.mem_of_find?_eq_some hf
        have hcrea : g'.creator = g.creator := by rw [hg']
        have hcm : g'.creator ∈ g'.members := by
          rw [hg']
          refine List.mem_filter.mpr ⟨hinv g hgmem, ?_⟩
          have : g.creator ≠ memberId := by
            rw [hcrea] at hnc
            exact fun h => hnc h.symm
          simp [this]
        refine ⟨hcm, ?_⟩
        intro h hmem
        rw [hgs] at hmem
        rcases mem_of_mem_updateFirst hmem with h' | ⟨y, _, _, hy⟩
        · exact hinv h h'
        · rw [hy]
          exact hcm

theorem creator_in_members_preserved_witness :
    (1 : Nat) ∈ ({ id := 5, name := "g", description := "", creator := 1,
                   members := dedupFirst ([2] ++ [1]), createdAt := 9,
                   updatedAt := 9 } : Group).members := by
  refine (creator_in_members_preserved.1 [] 1 "g" "" [2] 5 9
    [{ id := 5, name := "g", description := "", creator := 1,
       members := dedupFirst ([2] ++ [1]), createdAt := 9, updatedAt := 9 }]
    { id := 5, name := "g", description := "", creator := 1,
      members := dedupFirst ([2] ++ [1]), createdAt := 9, updatedAt := 9 }
    (fun g hg => absurd hg (List.not_mem_nil g)) rfl).1

/-- One entry of the unified chat list returned by GET /chats: either a
direct counterpart (id is the user id of the counterpart) or a group (id is the
group id). -/
structure ChatEntry where
  id : Option Nat
  name : String := ""
  isGroup : Bool
  lastMessage : Option Message := none
  unreadCount : Nat := 0
  updatedAt : Nat := 0
deriving DecidableEq

/-- The aggregation match stage of GET /chats: non-group messages the user
sent or received. -/
def dmTouches (uid : Nat) (m : Message) : Bool :=
  (m.sender == uid && m.isGroup == false) || (m.recipient == some uid && m.isGroup == false)

/-- The grouping key of the aggregation: the counterpart of the message
(its recipient when the user sent it, its sender otherwise). -/
def dmKey (uid : Nat) (m : Message) : Option Nat :=
  if m.sender == uid then m.recipient else some m.sender

/-- The matched direct messages, newest first (the sort stage). -/
def dmSorted (uid : Nat) (msgs : List Message) : List Message :=
  sortDescBy Message.createdAt (msgs.filter (dmTouches uid))

/-- The distinct grouping keys produced by the group stage. -/
def dmKeys (uid : Nat) (msgs : List Message) : List (Option Nat) :=
  ((dmSorted uid msgs).map (dmKey uid)).dedup

/-- The messages of one aggregation group, still newest first. -/
def dmGroup (uid : Nat) (msgs : List Message) (k : Option Nat) : List Message :=
  (dmSorted uid msgs).filter (fun m => dmKey uid m == k)

/-- The direct chat entry for counterpart key k joined with user u: the
newest message of the group as lastMessage, the count of unread messages
addressed to the user, and the lastMessage timestamp as recency. -/
def dmEntry (uid : Nat) (msgs : List Message) (k : Option Nat) (u : User) : ChatEntry :=
  { id := k, name := u.name, isGroup := false,
    lastMessage := (dmGroup uid msgs k).head?,
    unreadCount := ((dmGroup uid msgs k).filter
      (fun m => m.recipient == some uid && m.read == false)).length,
    updatedAt := match (dmGroup uid msgs k).head? with
                 | some m => m.createdAt
                 | none => 0 }

/-- The direct-thread list of GET /chats: one entry per grouping key joined
against the user collection (the lookup plus unwind stages drop keys with no
matching user). -/
def directThreads (uid : Nat) (msgs : List Message) (users : List User) : List ChatEntry :=
  (dmKeys uid msgs).flatMap (fun k =>
    (users.filter (fun u => some u.id == k)).map (dmEntry uid msgs k))

/-- The per-group unread count of GET /chats. -/
def groupUnread (uid gid : Nat) (msgs : List Message) : Nat :=
  (msgs.filter (fun m => m.groupId == some gid && !(m.sender == uid) && m.read == false)).length

/-- The chat entry of one group the user belongs to. -/
def groupEntry (uid : Nat) (msgs : List Message) (g : Group) : ChatEntry :=
  { id := some g.id, name := g.name, isGroup := true,
    lastMessage := g.lastMessage.bind (fun mid => msgs.find? (fun m => m.id == mid)),
    unreadCount := groupUnread uid g.id msgs,
    updatedAt := g.updatedAt }

/-- The group-thread list of GET /chats: every group whose members include
the user, newest activity first. -/
def groupThreads (uid : Nat) (groups : List Group) (msgs : List Message) : List ChatEntry :=
  (sortDescBy Group.updatedAt (groups.filter (fun g => g.members.contains uid))).map
    (groupEntry uid msgs)

/-- GET /chats handler: merge both lists and sort by last activity. -/
def listChats (uid : Nat) (msgs : List Message) (groups : List Group)
    (users : List User) : List ChatEntry :=
  sortDescBy ChatEntry.updatedAt (directThreads uid msgs users ++ groupThreads uid groups msgs)

theorem countP_flatMap {β γ} (f : β → List γ) (p : γ → Bool) (l : List β) :
    (l.flatMap f).countP p = (l.map (fun a => (f a).countP p)).sum := by
  induction l with
  | nil => rfl
  | cons a l ih =>
    rw [List.flatMap_cons, List.countP_append, List.map_cons, List.sum_cons, ih]

theorem sum_single_key (keyval : Option Nat) (keys : List (Option Nat))
    (f : Option Nat → Nat) (hnd : keys.Nodup)
    (hzero : ∀ k ∈ keys, k ≠ keyval → f k = 0) :
    (keys.map f).sum = if keyval ∈ keys then f keyval else 0 := by
  induction keys with
  | nil => simp
  | cons k ks ih =>
    rw [List.nodup_cons] at hnd
    obtain ⟨hk, hnd'⟩ := hnd
    rw [List.map_cons, List.sum_cons]
    by_cases hkv : k = keyval
    · subst hkv
      rw [if_pos (List.mem_cons_self k ks)]
      have hzs : (ks.map f).sum = 0 := by
        refine List.sum_eq_zero ?_
        intro x hx
        obtain ⟨k', hk', hfk'⟩ := List.mem_map.mp hx
        rw [← hfk']
        refine hzero k' (List.mem_cons_of_mem k hk') ?_
        intro h
        exact hk (h ▸ hk')
      rw [hzs, Nat.add_zero]
    · rw [hzero k (List.mem_cons_self k ks) hkv, Nat.zero_add,
        ih hnd' (fun k' hk' => hzero k' (List.mem_cons_of_mem k hk'))]
      by_cases hmem : keyval ∈ ks
      · rw [if_pos hmem, if_pos (List.mem_cons_of_mem k hmem)]
      · rw [if_neg hmem, if_neg ?_]
        intro h
        rcases List.mem_cons.mp h with h' | h'
        · exact hkv h'.symm
        · exact hmem h'

theorem countP_key_unique {β} (key : β → Nat) (q : β → Bool) (l : List β) (k : Nat)
    (hnd : (l.map key).Nodup) (hk : ∀ x, q x = true → key x = k) :
    l.countP q = if l.any q then 1 else 0 := by
  induction l with
  | nil => simp
  | cons x xs ih =>
    rw [List.map_cons, List.nodup_cons] at hnd
    obtain ⟨hkx, hnd'⟩ := hnd
    rw [List.countP_cons]
    by_cases hqx : q x = true
    · have hzero : xs.countP q = 0 := by
        rw [List.countP_eq_zero]
        intro y hy hqy
        exact hkx ((hk x hqx).trans (hk y hqy).symm ▸ List.mem_map_of_mem key hy)
      rw [hzero, if_pos hqx]
      have hany : (x :: xs).any q = true := by
        rw [List.any_eq_true]
        exact ⟨x, List.mem_cons_self x xs, hqx⟩
      rw [if_pos hany]
    · rw [if_neg hqx, Nat.add_zero, ih hnd']
      have : ((x :: xs).any q) = (xs.any q) := by
        rw [List.any_cons, Bool.eq_false_iff.mpr hqx]
        rfl
      rw [this]

/-- Claim C2: ListChats returns exactly one entry per distinct direct
counterpart (whose most recent message is the lastMessage) and
exactly one entry per group the user belongs to — given unique user and
group ids and that every direct message references existing users. -/
theorem listChats_one_entry_each (uid : Nat) (msgs : List Message)
    (groups : List Group) (users : List User)
    (hU : (users.map User.id).Nodup)
    (hG : (groups.map Group.id).Nodup)
    (href : ∀ m ∈ msgs, dmTouches uid m = true →
      (∃ u ∈ users, u.id = m.sender) ∧
      (∀ r, m.recipient = some r → ∃ u ∈ users, u.id = r)) :
    (∀ c : Nat,
      (listChats uid msgs groups users).countP
          (fun e => e.isGroup == false && e.id == some c) =
        if msgs.any (fun m => dmTouches uid m && dmKey uid m == some c) then 1 else 0) ∧
    (∀ gid : Nat,
      (listChats uid msgs groups users).countP
          (fun e => e.isGroup && e.id == some gid) =
        if groups.any (fun g => g.id == gid && g.members.contains uid) then 1 else 0) ∧
    (∀ c : Nat,
      msgs.any (fun m => dmTouches uid m && dmKey uid m == some c) = true →
      ∃ e ∈ listChats uid msgs groups users, e.isGroup = false ∧ e.id = some c ∧
        ∃ m, e.lastMessage = some m ∧ m ∈ msgs ∧ dmTouches uid m = true ∧
          dmKey uid m = some c ∧
          ∀ m' ∈ msgs, dmTouches uid m' = true → dmKey uid m' = some c →
            m'.createdAt ≤ m.createdAt) := by
  have hdm_mem : ∀ m : Message,
      m ∈ dmSorted uid msgs ↔ (m ∈ msgs ∧ dmTouches uid m = true) := by
    intro m
    unfold dmSorted
    rw [mem_sortDescBy, List.mem_filter]
  have hkeys_mem : ∀ c : Nat, (some c ∈ dmKeys uid msgs) ↔
      msgs.any (fun m => dmTouches uid m && dmKey uid m == some c) = true := by
    intro c
    unfold dmKeys
    rw [List.mem_dedup, List.mem_map, List.any_eq_true]
    constructor
    · rintro ⟨m, hm, hkey⟩
      obtain ⟨hmm, htm⟩ := (hdm_mem m).mp hm
      exact ⟨m, hmm, by rw [Bool.and_eq_true]; exact ⟨htm, by simp [hkey]⟩⟩
    · rintro ⟨m, hm, hp⟩
      rw [Bool.and_eq_true] at hp
      exact ⟨m, (hdm_mem m).mpr ⟨hm, hp.1⟩, by simpa using hp.2⟩
  have hc_user : ∀ c : Nat, some c ∈ dmKeys uid msgs → ∃ u ∈ users, u.id = c := by
    intro c hc
    unfold dmKeys at hc
    rw [List.mem_dedup, List.mem_map] at hc
    obtain ⟨m, hm, hkey⟩ := hc
    obtain ⟨hmm, htm⟩ := (hdm_mem m).mp hm
    unfold dmKey at hkey
    by_cases hs : (m.sender == uid) = true
    · rw [if_pos hs] at hkey
      exact (href m hmm htm).2 c hkey
    · rw [if_neg hs] at hkey
      have hsc : m.sender = c := Option.some.inj hkey
      exact hsc ▸ (href m hmm htm).1
  have husers_len : ∀ c : Nat, some c ∈ dmKeys uid msgs →
      (users.filter (fun u => some u.id == some c)).length = 1 := by
    intro c hc
    obtain ⟨u, hu, huc⟩ := hc_user c hc
    have hany : users.any (fun u => some u.id == some c) = true := by
      rw [List.any_eq_true]
      exact ⟨u, hu, by simp [huc]⟩
    rw [← List.countP_eq_length_filter,
      countP_key_unique User.id _ users c hU (fun x hx => by simpa using hx), if_pos hany]
  have hdirect_count : ∀ c : Nat,
      (directThreads uid msgs users).countP
          (fun e => e.isGroup == false && e.id == some c) =
        if some c ∈ dmKeys uid msgs
        then (users.filter (fun u => some u.id == some c)).length else 0 := by
    intro c
    unfold directThreads
    rw [countP_flatMap]
    have hinner : ∀ k : Option Nat,
        ((users.filter (fun u => some u.id == k)).map (dmEntry uid msgs k)).countP
            (fun e => e.isGroup == false && e.id == some c) =
          if k = some c then (users.filter (fun u => some u.id == some c)).length else 0 := by
      intro k
      rw [List.countP_map]
      by_cases hkc : k = some c
      · subst hkc
        rw [if_pos rfl]
        have hfn : ((fun e => e.isGroup == false && e.id == some c) ∘
            dmEntry uid msgs (some c)) = fun _ => true := by
          funext u
          show ((false == false) && (some c == some c)) = true
          rw [beq_self_eq_true, beq_self_eq_true]
          rfl
        rw [hfn, List.countP_true]
      · rw [if_neg hkc]
        have hfn : ((fun e => e.isGroup == false && e.id == some c) ∘
            dmEntry uid msgs k) = fun _ => false := by
          funext u
          show ((false == false) && (k == some c)) = false
          rw [beq_self_eq_true, Bool.true_and, beq_eq_false_iff_ne]
          exact hkc
        rw [hfn, List.countP_false]
        rfl
    rw [List.map_congr_left (fun k _ => hinner k),
      sum_single_key (some c) (dmKeys uid msgs) _ (List.nodup_dedup _)
        (fun k _ hk => if_neg hk)]
    by_cases hmem : some c ∈ dmKeys uid msgs
    · rw [if_pos hmem, if_pos hmem, if_pos rfl]
    · rw [if_neg hmem, if_neg hmem]
  have hgroup_zero : ∀ c : Nat,
      (groupThreads uid groups msgs).countP
        (fun e => e.isGroup == false && e.id == some c) = 0 := by
    intro c
    rw [List.countP_eq_zero]
    intro e he hpe
    unfold groupThreads at he
    obtain ⟨g, hg, hge⟩ := List.mem_map.mp he
    rw [← hge] at hpe
    simp [groupEntry] at hpe
  have hdirect_zero : ∀ gid : Nat,
      (directThreads uid msgs users).countP
        (fun e => e.isGroup && e.id == some gid) = 0 := by
    intro gid
    rw [List.countP_eq_zero]
    intro e he hpe
    unfold directThreads at he
    obtain ⟨k, hk, hke⟩ := List.mem_flatMap.mp he
    obtain ⟨u, hu, hue⟩ := List.mem_map.mp hke
    rw [← hue] at hpe
    simp [dmEntry] at hpe
  have hgroup_count : ∀ gid : Nat,
      (groupThreads uid groups msgs).countP
          (fun e => e.isGroup && e.id == some gid) =
        if groups.any (fun g => g.id == gid && g.members.contains uid) then 1 else 0 := by
    intro gid
    unfold groupThreads
    rw [List.countP_map]
    have hcomp : ((fun e => e.isGroup && e.id == some gid) ∘ groupEntry uid msgs) =
        fun g => g.id == gid := by
      funext g
      show ((true && (some g.id == some gid)) = (g.id == gid))
      rw [Bool.true_and]
      by_cases h : g.id = gid <;> simp [h]
    rw [hcomp, countP_sortDescBy, List.countP_filter,
      countP_key_unique Group.id _ groups gid hG
        (fun x hx => by
          rw [Bool.and_eq_true] at hx
          simpa using hx.1)]
  refine ⟨?_, ?_, ?_⟩
  · intro c
    unfold listChats
    rw [countP_sortDescBy, List.countP_append, hgroup_zero c, Nat.add_zero, hdirect_count c]
    by_cases hmem : some c ∈ dmKeys uid msgs
    · rw [if_pos hmem, husers_len c hmem, if_pos ((hkeys_mem c).mp hmem)]
    · have hnot : ¬(msgs.any (fun m => dmTouches uid m && dmKey uid m == some c) = true) :=
        fun hany => hmem ((hkeys_mem c).mpr hany)
      rw [if_neg hmem, if_neg hnot]
  · intro gid
    unfold listChats
    rw [countP_sortDescBy, List.countP_append, hdirect_zero gid, Nat.zero_add,
      hgroup_count gid]
  · intro c hany
    have hmem : some c ∈ dmKeys uid msgs := (hkeys_mem c).mpr hany
    obtain ⟨u, hu, huc⟩ := hc_user c hmem
    obtain ⟨m0, hm0s, hm0k⟩ : ∃ m ∈ dmSorted uid msgs, dmKey uid m = some c := by
      rw [List.any_eq_true] at hany
      obtain ⟨m, hm, hp⟩ := hany
      rw [Bool.and_eq_true] at hp
      exact ⟨m, (hdm_mem m).mpr ⟨hm, hp.1⟩, by simpa using hp.2⟩
    have hm0g : m0 ∈ dmGroup uid msgs (some c) := by
      unfold dmGroup
      exact List.mem_filter.mpr ⟨hm0s, by simp [hm0k]⟩
    have hemem : dmEntry uid msgs (some c) u ∈ listChats uid msgs groups users := by
      unfold listChats
      rw [mem_sortDescBy, List.mem_append]
      refine Or.inl ?_
      unfold directThreads
      rw [List.mem_flatMap]
      refine ⟨some c, hmem, ?_⟩
      rw [List.mem_map]
      exact ⟨u, List.mem_filter.mpr ⟨hu, by simp [huc]⟩, rfl⟩
    cases hgrp : dmGroup uid msgs (some c) with
    | nil => rw [hgrp] at hm0g; simp at hm0g
    | cons mh mt =>
      have hhead : (dmGroup uid msgs (some c)).head? = some mh := by
        rw [hgrp]; rfl
      have hmhg : mh ∈ dmGroup uid msgs (some c) := by
        rw [hgrp]; exact List.mem_cons_self _ _
      have hmhf : mh ∈ dmSorted uid msgs ∧ (dmKey uid mh == some c) = true := by
        unfold dmGroup at hmhg
        exact List.mem_filter.mp hmhg
      obtain ⟨hmm, htm⟩ := (hdm_mem mh).mp hmhf.1
      refine ⟨dmEntry uid msgs (some c) u, hemem, rfl, rfl, mh, ?_, hmm, htm,
        by simpa using hmhf.2, ?_⟩
      · show (dmGroup uid msgs (some c)).head? = some mh
        exact hhead
      · intro m' hm' ht' hk'
        have hm'g : m' ∈ dmGroup uid msgs (some c) := by
          unfold dmGroup
          exact List.mem_filter.mpr ⟨(hdm_mem m').mpr ⟨hm', ht'⟩, by simp [hk']⟩
        have hpair : (dmGroup uid msgs (some c)).Pairwise
            (fun a b => Message.createdAt b ≤ Message.createdAt a) := by
          have h1 := sorted_sortDescBy Message.createdAt (msgs.filter (dmTouches uid))
          exact List.Pairwise.sublist (List.filter_sublist _) h1
        exact head?_key_max Message.createdAt _ hpair m' hm'g mh hhead

theorem listChats_one_entry_each_witness :
    (listChats 1
      [{ id := 0, sender := 1, recipient := some 2, content := "hi", createdAt := 5 },
       { id := 1, sender := 2, recipient := some 1, content := "yo", createdAt := 6 }]
      [{ id := 9, name := "G", creator := 1, members := [1] }]
      [{ id := 1 }, { id := 2 }]).countP
        (fun e => e.isGroup == false && e.id == some 2) = 1 := by
  refine ((listChats_one_entry_each 1
    [{ id := 0, sender := 1, recipient := some 2, content := "hi", createdAt := 5 },
     { id := 1, sender := 2, recipient := some 1, content := "yo", createdAt := 6 }]
    [{ id := 9, name := "G", creator := 1, members := [1] }]
    [{ id := 1 }, { id := 2 }] (by decide) (by decide) ?_).1 2).trans (by decide)
  intro m hm ht
  rcases List.mem_cons.mp hm with rfl | hm'
  · refine ⟨⟨{ id := 1 }, by decide, rfl⟩, ?_⟩
    intro r hr
    injection hr with hr
    subst hr
    exact ⟨{ id := 2 }, by decide, rfl⟩
  · rcases List.mem_cons.mp hm' with rfl | hm''
    · refine ⟨⟨{ id := 2 }, by decide, rfl⟩, ?_⟩
      intro r hr
      injection hr with hr
      subst hr
      exact ⟨{ id := 1 }, by decide, rfl⟩
    · exact absurd hm'' (List.not_mem_nil m)

end DevConnect
